import Mathlib

/-!
Verification development for the file renamer tool.

The program prefixes each file with a `yymmdd_hhmmss_` timestamp derived from
filesystem creation metadata, relocates (move/copy) it into a destination
directory, and resolves name collisions with a zero-padded counter suffix.

The definitions below are a shallow embedding of `src/file_renamer.py`:
pure string manipulation becomes Lean functions on `String`, and the
filesystem-effecting parts (`rename_file`, `process_directory`, the single
file branch of `main`) become explicit state passing over a small
filesystem model `FS`.  Library calls (`shutil.copy2`, `shutil.move`,
`Path.mkdir`, `os.stat`) are given their documented semantics as operations
on `FS`.
-/

set_option autoImplicit false

namespace FileRenamer

/-! ### Decimal rendering and zero padding

Python's `f"{counter:03d}"` renders `counter` in decimal, left padded with
zeros to a minimum width.  `natDigits` renders the decimal digits; its first
argument is structural fuel (always called with fuel `n + 1 > n`, which is
sufficient, so the `[]` base case is unreachable). -/

/-- Character for a single decimal digit `d < 10` (ASCII `'0'` is 48). -/
def digitChar (d : Nat) : Char := Char.ofNat (48 + d)

/-- Decimal digit list of `n`, most significant first; fuel-structural. -/
def natDigits : Nat → Nat → List Char
  | 0, _ => []
  | fuel+1, n => if n < 10 then [digitChar n] else natDigits fuel (n / 10) ++ [digitChar (n % 10)]

/-- Decimal digits of `n` zero padded on the left to minimum width `width`,
embedding Python's `f"{n:0Nd}"` format. -/
def padNat (width n : Nat) : List Char :=
  List.replicate (width - (natDigits (n+1) n).length) '0' ++ natDigits (n+1) n

/-- Python `f"{n:03d}"`: zero padded 3-digit rendering (wider if `n ≥ 1000`). -/
def pad3 (n : Nat) : String := ⟨padNat 3 n⟩

/-- Python `f"{n:02d}"`-style zero padded 2-digit rendering, as produced by
each `strftime` field (`%y`, `%m`, `%d`, `%H`, `%M`, `%S`). -/
def pad2 (n : Nat) : String := ⟨padNat 2 n⟩

/-! ### Timestamps -/

/-- Calendar date-time, the model of Python's `datetime` as far as the
program uses it (only `strftime("%y%m%d_%H%M%S_")` is applied to it). -/
structure DateTime where
  year : Nat
  month : Nat
  day : Nat
  hour : Nat
  minute : Nat
  second : Nat
deriving DecidableEq

/-- Embeds `format_datetime_prefix`: `dt.strftime("%y%m%d_%H%M%S_")`.
`%y` is the year modulo 100, zero padded to two digits; the remaining
fields are zero padded to two digits. -/
def formatDatetimePrefix (dt : DateTime) : String :=
  pad2 (dt.year % 100) ++ pad2 dt.month ++ pad2 dt.day ++ "_" ++
    pad2 dt.hour ++ pad2 dt.minute ++ pad2 dt.second ++ "_"

/-! ### Collision resolution (`rename_file`, lines 104-114) -/

/-- Helper for `rsplitDot1`: split a character list at its LAST `'.'`,
returning the parts before and after it, or `none` when no `'.'` occurs. -/
def rsplitDotAux : List Char → Option (List Char × List Char)
  | [] => none
  | c :: cs =>
    match rsplitDotAux cs with
    | some (b, e) => some (c :: b, e)
    | none => if c = '.' then some ([], cs) else none

/-- Embeds Python `original_name.rsplit('.', 1)` restricted to the shape the
source inspects: `some (base, ext)` when the split yields two parts
(`original_name` contains a dot), `none` when it yields one part. -/
def rsplitDot1 (s : String) : Option (String × String) :=
  match rsplitDotAux s.data with
  | some (b, e) => some (⟨b⟩, ⟨e⟩)
  | none => none

/-- Embeds the body of the collision loop building the alternate filename
for a given counter value: `f"{date_prefix}{base_name}_{counter:03d}.{extension}"`
when the original name splits at a dot, else
`f"{date_prefix}{original_name}_{counter:03d}"`. -/
def suffixedName (pre origName : String) (counter : Nat) : String :=
  match rsplitDot1 origName with
  | some (baseName, ext) => pre ++ baseName ++ "_" ++ pad3 counter ++ "." ++ ext
  | none => pre ++ origName ++ "_" ++ pad3 counter

/-- The sequence of destination filenames the loop tries, in order:
index 0 is the unsuffixed `date_prefix + original_name`, index `k ≥ 1` the
alternate with counter value `k`. -/
def candidate (pre origName : String) : Nat → String
  | 0 => pre ++ origName
  | k+1 => suffixedName pre origName (k+1)

/-- Embeds the `while destination_path.exists()` loop of `rename_file`:
`cur` is the current candidate filename and `counter` the counter value the
next alternate would use.  The loop in the source is unbounded; here `fuel`
is a structural bound on the number of iterations, and
`findFreeName_stable` below proves that the fuel used by `resolveName` is
never exhausted, so the embedding computes exactly what the unbounded loop
computes. -/
def findFreeName (pre origName : String) (existing : List String) : Nat → Nat → String → String
  | 0, _, cur => cur
  | fuel+1, counter, cur =>
    if cur ∈ existing then
      findFreeName pre origName existing fuel (counter + 1) (suffixedName pre origName counter)
    else cur

/-- The destination filename `rename_file` resolves, given the list of
filenames already present in the destination directory: starting from the
unsuffixed candidate with `counter = 1`, retry until a free name is found. -/
def resolveName (pre origName : String) (existing : List String) : String :=
  findFreeName pre origName existing (existing.length + 1) 1 (pre ++ origName)

/-- Destination filenames produced by placing `n` files with the same
original name and the same timestamp one after another into a destination
directory that starts empty; each placement adds its resolved name to the
directory content seen by the next. -/
def placeSequence (pre origName : String) : Nat → List String
  | 0 => []
  | n+1 => placeSequence pre origName n ++
      [resolveName pre origName (placeSequence pre origName n)]

/-! ### Extension filtering (`process_directory`, lines 152-155) -/

/-- Embeds Python `Path.suffix`: the final component's extension including
the leading dot, empty when the name has no dot, starts with its only dot
(a dotfile), or ends with its last dot. -/
def pathSuffix (nm : String) : String :=
  match rsplitDot1 nm with
  | some (b, e) => if b.data ≠ [] ∧ e.data ≠ [] then "." ++ e else ""
  | none => ""

/-- Embeds Python `str.lower()` on the ASCII strings the tool handles. -/
def strLower (s : String) : String := ⟨s.data.map Char.toLower⟩

/-- Embeds lines 153-155 of `process_directory`, including Python truthiness
of `if file_extensions:` — `None` and the empty list both skip filtering. -/
def filterByExtensions (files : List String) (fileExtensions : Option (List String)) :
    List String :=
  match fileExtensions with
  | none => files
  | some exts =>
    if exts = [] then files
    else
      let extsLower := exts.map strLower
      files.filter (fun f => decide (strLower (pathSuffix f) ∈ extsLower))

/-! ### Filesystem model

Paths are (directory, filename) pairs; directories are flat atoms (the tool
never nests its destination inside the data it manages, and no claim is
about path syntax).  A file carries abstract byte content and its creation
timestamp, the two pieces of metadata the program reads or transfers. -/

/-- A file location: (containing directory, filename). -/
abbrev FPath := String × String

/-- Content and stat metadata of one regular file. -/
structure FileData where
  content : Nat
  ctime : DateTime
deriving DecidableEq

/-- Filesystem state: the set of existing directories and an association
list from file locations to file data. -/
structure FS where
  dirs : List String
  files : List (FPath × FileData)
deriving DecidableEq

/-- Look up the data stored at a location (`os.stat` / reading a file). -/
def FS.lookup (fs : FS) (p : FPath) : Option FileData :=
  (fs.files.find? (fun e => e.1 == p)).map (·.2)

/-- Embeds `Path.mkdir(parents=True, exist_ok=True)`: idempotent directory
creation. -/
def FS.mkdir (fs : FS) (d : String) : FS :=
  if d ∈ fs.dirs then fs else { fs with dirs := d :: fs.dirs }

/-- Write file data at a location (the write performed by `shutil.copy2`
or `shutil.move`; the resolved location never pre-exists). -/
def FS.insertFile (fs : FS) (p : FPath) (v : FileData) : FS :=
  { fs with files := (p, v) :: fs.files }

/-- Remove the file at a location (the source removal of `shutil.move`). -/
def FS.eraseFile (fs : FS) (p : FPath) : FS :=
  { fs with files := fs.files.filter (fun e => e.1 != p) }

/-- Filenames of the regular files in directory `d` (what
`destination_path.exists()` probes ranges over at resolution time). -/
def FS.namesIn (fs : FS) (d : String) : List String :=
  fs.files.filterMap (fun e => if e.1.1 = d then some e.1.2 else none)

/-- Result of one `rename_file` call: the source returns a tuple
`(success, new_filename, error_message)`. -/
inductive TransferResult where
  | success (newFilename : String)
  | failure (error : String)
deriving DecidableEq

/-- Embeds `rename_file(source_path, destination_dir, copy_mode)`:
create the destination directory, stat the source (failing when it does not
exist), build the timestamp prefix, resolve a collision-free destination
filename, then copy (source kept) or move (source removed). -/
def rename_file (fs : FS) (sourceDir sourceName destinationDir : String) (copyMode : Bool) :
    FS × TransferResult :=
  let fs1 := fs.mkdir destinationDir
  match fs1.lookup (sourceDir, sourceName) with
  | none => (fs1, .failure "Could not retrieve file creation time")
  | some fd =>
    let datePre := formatDatetimePrefix fd.ctime
    let newFilename := resolveName datePre sourceName (fs1.namesIn destinationDir)
    if copyMode then
      (fs1.insertFile (destinationDir, newFilename) fd, .success newFilename)
    else
      ((fs1.eraseFile (sourceDir, sourceName)).insertFile (destinationDir, newFilename) fd,
        .success newFilename)

/-- Embeds the single-file branch of `main` (lines 219-229): the path is
checked for existence before `rename_file` is ever called, so a nonexistent
input produces a failure with no filesystem effect at all. -/
def mainSingleFile (fs : FS) (sourceDir sourceName destinationDir : String) (copyMode : Bool) :
    FS × TransferResult :=
  if (fs.lookup (sourceDir, sourceName)).isSome then
    rename_file fs sourceDir sourceName destinationDir copyMode
  else (fs, .failure "File does not exist")

/-- Embeds the per-file loop of `process_directory` (lines 163-174):
process each name in order, tallying successes and failures; a failure is
recorded and processing continues with the next file.  Returns
(final filesystem, success count, error count). -/
def processFiles (fs : FS) (inputDir : String) (names : List String) (outputDir : String)
    (copyMode : Bool) : FS × Nat × Nat :=
  match names with
  | [] => (fs, 0, 0)
  | nm :: rest =>
    match rename_file fs inputDir nm outputDir copyMode with
    | (fs1, .success _) =>
      let r := processFiles fs1 inputDir rest outputDir copyMode
      (r.1, r.2.1 + 1, r.2.2)
    | (fs1, .failure _) =>
      let r := processFiles fs1 inputDir rest outputDir copyMode
      (r.1, r.2.1, r.2.2 + 1)

/-- Embeds `process_directory`: `none` when the input directory does not
exist (the batch aborts before any file-level work); otherwise list the
regular files, filter by extensions, and process each in order.  (When the
filtered list is empty the source returns early after a warning; that is
observationally the fold over the empty list, counts 0/0.) -/
def process_directory (fs : FS) (inputDir outputDir : String) (copyMode : Bool)
    (fileExtensions : Option (List String)) : Option (FS × Nat × Nat) :=
  if inputDir ∈ fs.dirs then
    some (processFiles fs inputDir (filterByExtensions (fs.namesIn inputDir) fileExtensions)
      outputDir copyMode)
  else none

/-! ### Basic string facts -/

/-- A `String` is determined by its character list. -/
theorem strMkData (s : String) : (⟨s.data⟩ : String) = s := by
  cases s; rfl

theorem strDataAppend (s t : String) : (s ++ t).data = s.data ++ t.data :=
  String.data_append s t

theorem strLengthData (s : String) : s.length = s.data.length := rfl

theorem underscoreData : ("_" : String).data = ['_'] := rfl

theorem dotData : ("." : String).data = ['.'] := rfl

/-! ### Decimal rendering: round trip and injectivity -/

/-- Numeric value of a digit character. -/
def charVal (c : Char) : Nat := c.toNat - 48

/-- Decimal value of a digit string (ignores leading zeros), with
accumulator. -/
def evalFrom (a : Nat) (l : List Char) : Nat :=
  l.foldl (fun acc c => 10 * acc + charVal c) a

theorem evalFrom_append (a : Nat) (l₁ l₂ : List Char) :
    evalFrom a (l₁ ++ l₂) = evalFrom (evalFrom a l₁) l₂ :=
  List.foldl_append _ _ _ _

theorem charVal_digitChar {d : Nat} (hd : d < 10) : charVal (digitChar d) = d := by
  interval_cases d <;> decide

theorem evalFrom_natDigits : ∀ (fuel n : Nat), n < fuel →
    evalFrom 0 (natDigits fuel n) = n := by
  intro fuel
  induction fuel with
  | zero => intro n hn; omega
  | succ fuel ih =>
    intro n hn
    by_cases h10 : n < 10
    · simp only [natDigits, if_pos h10]
      simp [evalFrom, charVal_digitChar h10]
    · simp only [natDigits, if_neg h10]
      rw [evalFrom_append]
      have hone : n / 10 < n := Nat.div_lt_self (by omega) (by omega)
      rw [ih (n / 10) (by omega)]
      have hm : n % 10 < 10 := Nat.mod_lt _ (by omega)
      simp only [evalFrom, List.foldl, charVal_digitChar hm]
      omega

theorem evalFrom_replicate_zero (k : Nat) :
    evalFrom 0 (List.replicate k '0') = 0 := by
  induction k with
  | zero => rfl
  | succ k ih =>
    simp only [List.replicate, evalFrom, List.foldl] at ih ⊢
    have h0 : charVal '0' = 0 := by decide
    simpa [h0] using ih

theorem evalFrom_padNat (w n : Nat) : evalFrom 0 (padNat w n) = n := by
  unfold padNat
  rw [evalFrom_append, evalFrom_replicate_zero, evalFrom_natDigits (n + 1) n (by omega)]

/-- Zero padding renders distinct numbers as distinct digit lists. -/
theorem padNat_injective (w : Nat) {m n : Nat} (h : padNat w m = padNat w n) : m = n := by
  have := congrArg (evalFrom 0) h
  rwa [evalFrom_padNat, evalFrom_padNat] at this

theorem pad3_injective {m n : Nat} (h : pad3 m = pad3 n) : m = n := by
  have hd : padNat 3 m = padNat 3 n := congrArg String.data h
  exact padNat_injective 3 hd

theorem padNat_length_ge (w n : Nat) : w ≤ (padNat w n).length := by
  unfold padNat
  rw [List.length_append, List.length_replicate]
  omega

theorem pad3_length_ge (n : Nat) : 3 ≤ (pad3 n).length := by
  rw [strLengthData]
  exact padNat_length_ge 3 n

theorem pad2_length_ge (n : Nat) : 2 ≤ (pad2 n).length := by
  rw [strLengthData]
  exact padNat_length_ge 2 n

/-! ### Structure of `rsplit('.', 1)` -/

theorem rsplitDotAux_eq_some : ∀ {l b e : List Char},
    rsplitDotAux l = some (b, e) → l = b ++ '.' :: e := by
  intro l
  induction l with
  | nil => intro b e h; simp [rsplitDotAux] at h
  | cons c cs ih =>
    intro b e h
    simp only [rsplitDotAux] at h
    cases haux : rsplitDotAux cs with
    | some be =>
      obtain ⟨b', e'⟩ := be
      rw [haux] at h
      simp only [Option.some.injEq, Prod.mk.injEq] at h
      obtain ⟨hb, he⟩ := h
      subst hb; subst he
      simp [ih haux]
    | none =>
      rw [haux] at h
      by_cases hc : c = '.'
      · rw [if_pos hc] at h
        simp only [Option.some.injEq, Prod.mk.injEq] at h
        obtain ⟨hb, he⟩ := h
        subst hb; subst he
        simp [hc]
      · rw [if_neg hc] at h
        exact absurd h (by simp)

theorem rsplitDotAux_of_no_dot : ∀ {l : List Char}, '.' ∉ l → rsplitDotAux l = none := by
  intro l
  induction l with
  | nil => intro _; rfl
  | cons c cs ih =>
    intro h
    have hc : c ≠ '.' := fun hc => h (by simp [hc])
    have hcs : '.' ∉ cs := fun hm => h (by simp [hm])
    simp [rsplitDotAux, ih hcs, hc]

theorem rsplitDotAux_dotfile {ext : List Char} (h : '.' ∉ ext) :
    rsplitDotAux ('.' :: ext) = some ([], ext) := by
  simp [rsplitDotAux, rsplitDotAux_of_no_dot h]

/-- When `rsplit('.', 1)` yields two parts, the original name is the base,
a dot, and the extension. -/
theorem rsplitDot1_eq_some {s b e : String} (h : rsplitDot1 s = some (b, e)) :
    s.data = b.data ++ '.' :: e.data := by
  unfold rsplitDot1 at h
  cases haux : rsplitDotAux s.data with
  | some be =>
    obtain ⟨b', e'⟩ := be
    rw [haux] at h
    simp only [Option.some.injEq, Prod.mk.injEq] at h
    obtain ⟨hb, he⟩ := h
    have := rsplitDotAux_eq_some haux
    rw [← hb, ← he]
    exact this
  | none => rw [haux] at h; exact absurd h (by simp)

/-! ### Candidate filenames: lengths and injectivity -/

theorem underscoreLength : ("_" : String).length = 1 := by decide

theorem dotLength : ("." : String).length = 1 := by decide

theorem suffixedName_length (pre origName : String) (c : Nat) :
    (suffixedName pre origName c).length =
      pre.length + origName.length + 1 + (pad3 c).length := by
  unfold suffixedName
  cases h : rsplitDot1 origName with
  | none =>
    simp only [String.length_append, underscoreLength]
  | some be =>
    obtain ⟨b, e⟩ := be
    have hdata := rsplitDot1_eq_some h
    have h2 := congrArg List.length hdata
    simp only [List.length_append, List.length_cons] at h2
    simp only [String.length_append, underscoreLength, dotLength]
    simp only [strLengthData]
    omega

theorem candidate_length_zero (pre origName : String) :
    (candidate pre origName 0).length = pre.length + origName.length :=
  String.length_append pre origName

theorem candidate_length_succ (pre origName : String) (k : Nat) :
    (candidate pre origName (k+1)).length =
      pre.length + origName.length + 1 + (pad3 (k+1)).length :=
  suffixedName_length pre origName (k+1)

theorem suffixedName_inj {pre origName : String} {i j : Nat}
    (h : suffixedName pre origName i = suffixedName pre origName j) : i = j := by
  unfold suffixedName at h
  cases hs : rsplitDot1 origName with
  | none =>
    rw [hs] at h
    have hd := congrArg String.data h
    simp only [strDataAppend, underscoreData, List.append_assoc,
      List.singleton_append] at hd
    have h1 := List.append_cancel_left hd
    have h2 := List.append_cancel_left h1
    injection h2 with _ h3
    exact padNat_injective 3 h3
  | some be =>
    obtain ⟨b, e⟩ := be
    rw [hs] at h
    have hd := congrArg String.data h
    simp only [strDataAppend, underscoreData, dotData, List.append_assoc,
      List.singleton_append] at hd
    have h1 := List.append_cancel_left hd
    have h2 := List.append_cancel_left h1
    injection h2 with _ h3
    have h4 := List.append_cancel_right h3
    exact padNat_injective 3 h4

/-- The counter-indexed candidate destination names are pairwise distinct. -/
theorem candidate_injective (pre origName : String) :
    Function.Injective (candidate pre origName) := by
  intro i j h
  cases i with
  | zero =>
    cases j with
    | zero => rfl
    | succ j =>
      exfalso
      have hl := congrArg String.length h
      rw [candidate_length_zero, candidate_length_succ] at hl
      have := pad3_length_ge (j+1)
      omega
  | succ i =>
    cases j with
    | zero =>
      exfalso
      have hl := congrArg String.length h
      rw [candidate_length_succ, candidate_length_zero] at hl
      have := pad3_length_ge (i+1)
      omega
    | succ j =>
      have h' : suffixedName pre origName (i+1) = suffixedName pre origName (j+1) := h
      exact suffixedName_inj h'

/-! ### The collision loop -/

/-- Running the loop from candidate `k` (counter `k + 1`): if every candidate
from index `k` up to (excluding) `n` is taken and candidate `n` is free, the
loop returns candidate `n`, provided the fuel covers the `n - k` steps. -/
theorem findFreeName_run (pre origName : String) (ex : List String) :
    ∀ (fuel k n : Nat), k ≤ n →
      (∀ j, k ≤ j → j < n → candidate pre origName j ∈ ex) →
      candidate pre origName n ∉ ex → n - k < fuel →
      findFreeName pre origName ex fuel (k + 1) (candidate pre origName k) =
        candidate pre origName n := by
  intro fuel
  induction fuel with
  | zero => intro k n _ _ _ hf; omega
  | succ fuel ih =>
    intro k n hkn hocc hfree hf
    rcases Nat.eq_or_lt_of_le hkn with heq | hlt
    · subst heq
      simp [findFreeName, hfree]
    · have hk : candidate pre origName k ∈ ex := hocc k le_rfl hlt
      simp only [findFreeName, if_pos hk]
      have hcand : suffixedName pre origName (k+1) = candidate pre origName (k+1) := rfl
      rw [hcand]
      exact ih (k+1) n hlt (fun j hj1 hj2 => hocc j (by omega) hj2) hfree (by omega)

/-- Pigeonhole: the candidates are pairwise distinct, so a directory with
`ex.length` entries cannot contain all of the first `ex.length + 1` of them. -/
theorem exists_candidate_not_mem (pre origName : String) (ex : List String) :
    ∃ k, k ≤ ex.length ∧ candidate pre origName k ∉ ex := by
  by_contra hc
  push_neg at hc
  have hnodup : ((List.range (ex.length + 1)).map (candidate pre origName)).Nodup :=
    (List.nodup_range _).map (candidate_injective pre origName)
  have hsub : ((List.range (ex.length + 1)).map (candidate pre origName)).toFinset ⊆
      ex.toFinset := by
    intro x hx
    rw [List.mem_toFinset] at hx ⊢
    obtain ⟨k, hk, rfl⟩ := List.mem_map.mp hx
    have hk' := List.mem_range.mp hk
    exact hc k (by omega)
  have h1 := List.toFinset_card_of_nodup hnodup
  have h2 := Finset.card_le_card hsub
  have h3 := List.toFinset_card_le ex
  simp only [List.length_map, List.length_range] at h1
  omega

/-- Full characterization of `resolveName`: it returns the first free
candidate, its index is at most `ex.length`, and any fuel at least
`ex.length + 1` (in particular the fuel `resolveName` uses) computes the
same name — the unbounded source loop terminates with this very name. -/
theorem resolveName_spec (pre origName : String) (ex : List String) :
    ∃ n, n ≤ ex.length ∧ candidate pre origName n ∉ ex ∧
      (∀ j, j < n → candidate pre origName j ∈ ex) ∧
      resolveName pre origName ex = candidate pre origName n ∧
      (∀ fuel, ex.length + 1 ≤ fuel →
        findFreeName pre origName ex fuel 1 (pre ++ origName) =
          candidate pre origName n) := by
  obtain ⟨k0, hk0, hfree0⟩ := exists_candidate_not_mem pre origName ex
  have hex : ∃ k, candidate pre origName k ∉ ex := ⟨k0, hfree0⟩
  have hfree : candidate pre origName (Nat.find hex) ∉ ex := Nat.find_spec hex
  have hmin : ∀ j, j < Nat.find hex → candidate pre origName j ∈ ex := fun j hj =>
    not_not.mp (Nat.find_min hex hj)
  have hle : Nat.find hex ≤ ex.length := (Nat.find_min' hex hfree0).trans hk0
  refine ⟨Nat.find hex, hle, hfree, hmin, ?_, ?_⟩
  · unfold resolveName
    have h0 : pre ++ origName = candidate pre origName 0 := rfl
    rw [h0]
    have := findFreeName_run pre origName ex (ex.length + 1) 0 (Nat.find hex)
      (Nat.zero_le _) (fun j _ hj => hmin j hj) hfree (by omega)
    simpa using this
  · intro fuel hfuel
    have h0 : pre ++ origName = candidate pre origName 0 := rfl
    rw [h0]
    have := findFreeName_run pre origName ex fuel 0 (Nat.find hex)
      (Nat.zero_le _) (fun j _ hj => hmin j hj) hfree (by omega)
    simpa using this

/-- The resolved destination filename is never one that already exists. -/
theorem resolveName_not_mem (pre origName : String) (ex : List String) :
    resolveName pre origName ex ∉ ex := by
  obtain ⟨n, _, hfree, _, heq, _⟩ := resolveName_spec pre origName ex
  rw [heq]
  exact hfree

/-- Without a collision, the resolved name is the unsuffixed candidate. -/
theorem resolveName_no_collision {pre origName : String} {ex : List String}
    (h : pre ++ origName ∉ ex) : resolveName pre origName ex = pre ++ origName := by
  unfold resolveName
  simp [findFreeName, h]

/-- When the directory holds exactly the first `n` candidates, the loop walks
past all of them and resolves candidate `n`: the counter is not capped. -/
theorem resolveName_range (pre origName : String) (n : Nat) :
    resolveName pre origName ((List.range n).map (candidate pre origName)) =
      candidate pre origName n := by
  have hmem : ∀ j, j < n →
      candidate pre origName j ∈ (List.range n).map (candidate pre origName) :=
    fun j hj => List.mem_map.mpr ⟨j, List.mem_range.mpr hj, rfl⟩
  have hfree : candidate pre origName n ∉ (List.range n).map (candidate pre origName) := by
    intro hmem'
    obtain ⟨j, hj, hje⟩ := List.mem_map.mp hmem'
    have := candidate_injective pre origName hje
    rw [List.mem_range] at hj
    omega
  unfold resolveName
  have h0 : pre ++ origName = candidate pre origName 0 := rfl
  rw [h0]
  have hlen : ((List.range n).map (candidate pre origName)).length = n := by simp
  have := findFreeName_run pre origName ((List.range n).map (candidate pre origName))
    (((List.range n).map (candidate pre origName)).length + 1) 0 n
    (Nat.zero_le n) (fun j _ hj => hmem j hj) hfree (by omega)
  simpa using this

/-! ### Sequential placement -/

theorem placeSequence_eq (pre origName : String) : ∀ n,
    placeSequence pre origName n = (List.range n).map (candidate pre origName) := by
  intro n
  induction n with
  | zero => rfl
  | succ n ih =>
    simp only [placeSequence, ih, resolveName_range]
    rw [List.range_succ, List.map_append]
    rfl

theorem placeSequence_nodup (pre origName : String) (n : Nat) :
    (placeSequence pre origName n).Nodup := by
  rw [placeSequence_eq]
  exact (List.nodup_range n).map (candidate_injective pre origName)

/-! ### Filesystem lemmas -/

theorem FS.mkdir_files (fs : FS) (d : String) : (fs.mkdir d).files = fs.files := by
  unfold FS.mkdir
  split <;> rfl

theorem FS.lookup_mkdir (fs : FS) (d : String) (p : FPath) :
    (fs.mkdir d).lookup p = fs.lookup p := by
  unfold FS.lookup
  rw [FS.mkdir_files]

theorem FS.namesIn_mkdir (fs : FS) (d d' : String) :
    (fs.mkdir d').namesIn d = fs.namesIn d := by
  unfold FS.namesIn
  rw [FS.mkdir_files]

theorem FS.lookup_insertFile_self (fs : FS) (p : FPath) (v : FileData) :
    (fs.insertFile p v).lookup p = some v := by
  unfold FS.lookup FS.insertFile
  rw [List.find?_cons_of_pos _ (by simp)]
  rfl

theorem FS.lookup_insertFile_ne (fs : FS) {p q : FPath} (v : FileData) (h : q ≠ p) :
    (fs.insertFile p v).lookup q = fs.lookup q := by
  unfold FS.lookup FS.insertFile
  rw [List.find?_cons_of_neg _ (by simp only [beq_iff_eq]; exact Ne.symm h)]

theorem FS.lookup_eraseFile_self (fs : FS) (p : FPath) :
    (fs.eraseFile p).lookup p = none := by
  unfold FS.lookup FS.eraseFile
  rw [List.find?_eq_none.mpr]
  · rfl
  · intro x hx
    rw [List.mem_filter] at hx
    simp only [bne_iff_ne, ne_eq] at hx
    simp only [beq_iff_eq]
    exact hx.2

/-- `find?` by one key is unaffected when entries with a different key are
filtered out. -/
theorem find_filter_other {α β : Type} [DecidableEq α] [BEq α] [LawfulBEq α]
    (l : List (α × β)) (p q : α) (h : q ≠ p) :
    (l.filter (fun e => e.1 != p)).find? (fun e => e.1 == q) =
      l.find? (fun e => e.1 == q) := by
  induction l with
  | nil => rfl
  | cons e l ih =>
    by_cases heq : e.1 = q
    · have hne : e.1 ≠ p := by rw [heq]; exact h
      rw [List.filter_cons_of_pos (by simpa using hne),
        List.find?_cons_of_pos _ (by simpa using heq),
        List.find?_cons_of_pos _ (by simpa using heq)]
    · by_cases hep : e.1 = p
      · rw [List.filter_cons_of_neg (by simpa using hep),
          List.find?_cons_of_neg _ (by simpa using heq), ih]
      · rw [List.filter_cons_of_pos (by simpa using hep),
          List.find?_cons_of_neg _ (by simpa using heq),
          List.find?_cons_of_neg _ (by simpa using heq), ih]

theorem FS.lookup_eraseFile_ne (fs : FS) {p q : FPath} (h : q ≠ p) :
    (fs.eraseFile p).lookup q = fs.lookup q := by
  unfold FS.lookup FS.eraseFile
  rw [find_filter_other fs.files p q h]

theorem FS.mem_namesIn {fs : FS} {d nm : String} :
    nm ∈ fs.namesIn d ↔ fs.lookup (d, nm) ≠ none := by
  unfold FS.namesIn FS.lookup
  rw [List.mem_filterMap]
  constructor
  · rintro ⟨e, he, hsome⟩
    by_cases hd : e.1.1 = d
    · rw [if_pos hd] at hsome
      have hnm : e.1.2 = nm := by
        simpa using hsome
      have hkey : e.1 = (d, nm) := by
        cases hp : e.1 with
        | mk a b =>
          rw [hp] at hd hnm
          simp at hd hnm
          rw [hd, hnm]
      intro hnone
      rw [Option.map_eq_none'] at hnone
      rw [List.find?_eq_none] at hnone
      exact hnone e he (by simp [hkey])
    · rw [if_neg hd] at hsome
      exact absurd hsome (by simp)
  · intro hne
    cases hf : fs.files.find? (fun e => e.1 == (d, nm)) with
    | none => rw [hf] at hne; exact absurd rfl hne
    | some e =>
      have hkey : e.1 = (d, nm) := by
        have := List.find?_some hf
        simpa using this
      refine ⟨e, List.mem_of_find?_eq_some hf, ?_⟩
      rw [if_pos (by rw [hkey])]
      rw [hkey]

theorem FS.lookup_eq_none_of_not_namesIn {fs : FS} {d nm : String}
    (h : nm ∉ fs.namesIn d) : fs.lookup (d, nm) = none := by
  by_contra hne
  exact h (FS.mem_namesIn.mpr hne)

/-! ### `rename_file`: success case -/

/-- A successful `rename_file` call is characterized by: the source file
existed (its data was read), the returned filename is the collision-free
resolved name, and the final state is the mkdir'ed state with the file
written at the destination — keeping the source in copy mode, erasing it in
move mode. -/
theorem rename_file_success {fs fs' : FS} {sd sn dd : String} {mode : Bool} {nm : String}
    (h : rename_file fs sd sn dd mode = (fs', .success nm)) :
    ∃ fd, fs.lookup (sd, sn) = some fd ∧
      nm = resolveName (formatDatetimePrefix fd.ctime) sn ((fs.mkdir dd).namesIn dd) ∧
      fs' = (if mode then (fs.mkdir dd).insertFile (dd, nm) fd
             else ((fs.mkdir dd).eraseFile (sd, sn)).insertFile (dd, nm) fd) := by
  simp only [rename_file] at h
  split at h
  · simp at h
  · rename_i fd hl
    have hsrc : fs.lookup (sd, sn) = some fd := by
      rw [← FS.lookup_mkdir fs dd (sd, sn)]
      exact hl
    cases mode with
    | false =>
      simp only [Bool.false_eq_true, if_false, Prod.mk.injEq,
        TransferResult.success.injEq] at h
      obtain ⟨h1, h2⟩ := h
      refine ⟨fd, hsrc, h2.symm, ?_⟩
      simp only [Bool.false_eq_true, if_false]
      rw [← h2, ← h1]
    | true =>
      simp only [if_true, Prod.mk.injEq, TransferResult.success.injEq] at h
      obtain ⟨h1, h2⟩ := h
      refine ⟨fd, hsrc, h2.symm, ?_⟩
      simp only [if_true]
      rw [← h2, ← h1]

/-! ### Length facts used to separate source and destination paths -/

theorem formatDatetimePrefix_length (t : DateTime) :
    14 ≤ (formatDatetimePrefix t).length := by
  unfold formatDatetimePrefix
  simp only [String.length_append, underscoreLength]
  have h1 := pad2_length_ge (t.year % 100)
  have h2 := pad2_length_ge t.month
  have h3 := pad2_length_ge t.day
  have h4 := pad2_length_ge t.hour
  have h5 := pad2_length_ge t.minute
  have h6 := pad2_length_ge t.second
  omega

theorem resolveName_length_ge (pre origName : String) (ex : List String) :
    pre.length + origName.length ≤ (resolveName pre origName ex).length := by
  obtain ⟨n, _, _, _, heq, _⟩ := resolveName_spec pre origName ex
  rw [heq]
  cases n with
  | zero => rw [candidate_length_zero]
  | succ n => rw [candidate_length_succ]; omega

/-- The resolved destination filename differs from the original filename
whenever the timestamp prefix is nonempty (it always is: 14 characters). -/
theorem resolveName_ne_orig {pre : String} (origName : String) (ex : List String)
    (h : 0 < pre.length) : resolveName pre origName ex ≠ origName := by
  intro he
  have hlen := resolveName_length_ge pre origName ex
  rw [he] at hlen
  omega

/-! ### Batch processing counts -/

theorem processFiles_counts (inputDir outputDir : String) (copyMode : Bool) :
    ∀ (names : List String) (fs : FS),
      (processFiles fs inputDir names outputDir copyMode).2.1 +
        (processFiles fs inputDir names outputDir copyMode).2.2 = names.length := by
  intro names
  induction names with
  | nil => intro fs; rfl
  | cons nm rest ih =>
    intro fs
    simp only [processFiles]
    rcases hr : rename_file fs inputDir nm outputDir copyMode with ⟨fs1, res⟩
    cases res with
    | success s =>
      simp only [List.length_cons]
      have := ih fs1
      omega
    | failure e =>
      simp only [List.length_cons]
      have := ih fs1
      omega

/-! ### Extension filtering lemmas -/

theorem filterByExtensions_none (files : List String) :
    filterByExtensions files none = files := rfl

theorem filterByExtensions_nil (files : List String) :
    filterByExtensions files (some []) = files := by
  simp [filterByExtensions]

theorem mem_filterByExtensions {files exts : List String} (hne : exts ≠ [])
    (f : String) :
    f ∈ filterByExtensions files (some exts) ↔
      f ∈ files ∧ ∃ e ∈ exts, strLower (pathSuffix f) = strLower e := by
  simp only [filterByExtensions]
  rw [if_neg hne]
  rw [List.mem_filter]
  simp only [decide_eq_true_eq, List.mem_map]
  constructor
  · rintro ⟨hf, e, he, heq⟩
    exact ⟨hf, e, he, heq.symm⟩
  · rintro ⟨hf, e, he, heq⟩
    exact ⟨hf, e, he, heq.symm⟩

/-! ### Dotfile collision names -/

theorem rsplitDot1_dotfile {ext : String} (h : '.' ∉ ext.data) :
    rsplitDot1 ("." ++ ext) = some ("", ext) := by
  unfold rsplitDot1
  have hdata : ("." ++ ext).data = '.' :: ext.data := by
    rw [strDataAppend, dotData]
    rfl
  rw [hdata, rsplitDotAux_dotfile h]

theorem suffixedName_dotfile {ext : String} (pre : String) (h : '.' ∉ ext.data) (c : Nat) :
    suffixedName pre ("." ++ ext) c = pre ++ "_" ++ pad3 c ++ "." ++ ext := by
  unfold suffixedName
  rw [rsplitDot1_dotfile h]
  simp [String.append_empty]

/-! ### Claims -/

/-- C1: placing `n` files with identical original name, extension and
creation timestamp into an initially empty destination directory yields the
candidate sequence in processing order — the first unsuffixed
(`prefix + name`), the `k`-th carrying the zero-padded counter `k` inserted
before the extension — and the `n` resulting filenames are pairwise
distinct.  Concretely, three `report.pdf` files with creation time
2025-08-08 14:30:22 resolve to `250808_143022_report.pdf`,
`250808_143022_report_001.pdf`, `250808_143022_report_002.pdf`. -/
theorem claim_C1 (pre origName : String) (n : Nat) :
    placeSequence pre origName n = (List.range n).map (candidate pre origName) ∧
    (placeSequence pre origName n).Nodup ∧
    candidate pre origName 0 = pre ++ origName ∧
    (∀ k, candidate pre origName (k+1) = suffixedName pre origName (k+1)) ∧
    placeSequence "250808_143022_" "report.pdf" 3 =
      ["250808_143022_report.pdf", "250808_143022_report_001.pdf",
        "250808_143022_report_002.pdf"] :=
  ⟨placeSequence_eq pre origName n, placeSequence_nodup pre origName n, rfl,
    fun _ => rfl, by decide⟩

/-- C2: a successful transfer writes to a destination path that held no
file before the call, and every pre-existing file other than the (possibly
moved) source keeps its data — no existing file is overwritten.  The model
is single-process: no external writer acts between the existence check and
the transfer. -/
theorem claim_C2 {fs fs' : FS} {sd sn dd : String} {mode : Bool} {nm : String}
    (h : rename_file fs sd sn dd mode = (fs', .success nm)) :
    fs.lookup (dd, nm) = none ∧
    ∀ (q : FPath) (v : FileData), q ≠ (sd, sn) → fs.lookup q = some v →
      fs'.lookup q = some v := by
  obtain ⟨fd, hsrc, hnm, hfs'⟩ := rename_file_success h
  have hnotmem : nm ∉ (fs.mkdir dd).namesIn dd := by
    rw [hnm]
    exact resolveName_not_mem _ _ _
  have hnone : fs.lookup (dd, nm) = none := by
    rw [← FS.lookup_mkdir fs dd (dd, nm)]
    exact FS.lookup_eq_none_of_not_namesIn hnotmem
  refine ⟨hnone, ?_⟩
  intro q v hqs hq
  have hqd : q ≠ (dd, nm) := by
    intro he
    rw [he, hnone] at hq
    exact absurd hq (by simp)
  cases mode with
  | false =>
    simp only [Bool.false_eq_true, if_false] at hfs'
    subst hfs'
    rw [FS.lookup_insertFile_ne _ _ hqd, FS.lookup_eraseFile_ne _ hqs, FS.lookup_mkdir]
    exact hq
  | true =>
    simp only [if_true] at hfs'
    subst hfs'
    rw [FS.lookup_insertFile_ne _ _ hqd, FS.lookup_mkdir]
    exact hq

/-- Witness for C2: a concrete move of `report.pdf` into `out/`. -/
theorem claim_C2_witness :
    (⟨["in"], [(("in", "report.pdf"), ⟨7, ⟨2025, 8, 8, 14, 30, 22⟩⟩)]⟩ : FS).lookup
      ("out", "250808_143022_report.pdf") = none ∧
    ∀ (q : FPath) (v : FileData), q ≠ ("in", "report.pdf") →
      (⟨["in"], [(("in", "report.pdf"), ⟨7, ⟨2025, 8, 8, 14, 30, 22⟩⟩)]⟩ : FS).lookup q =
        some v →
      (⟨["out", "in"],
        [(("out", "250808_143022_report.pdf"), ⟨7, ⟨2025, 8, 8, 14, 30, 22⟩⟩)]⟩ : FS).lookup
          q = some v :=
  @claim_C2 ⟨["in"], [(("in", "report.pdf"), ⟨7, ⟨2025, 8, 8, 14, 30, 22⟩⟩)]⟩
    ⟨["out", "in"], [(("out", "250808_143022_report.pdf"), ⟨7, ⟨2025, 8, 8, 14, 30, 22⟩⟩)]⟩
    "in" "report.pdf" "out" false "250808_143022_report.pdf" (by decide)

/-- C3: with no collision, the resolved destination filename is exactly the
fixed-width `yymmdd_hhmmss_` prefix of the creation time followed by the
original name unmodified; the prefix of 2025-08-08 14:30:22 is
`250808_143022_`, and renaming `report.pdf` with that creation time into an
empty destination yields `250808_143022_report.pdf`. -/
theorem claim_C3 (t : DateTime) (origName : String) (ex : List String)
    (h : formatDatetimePrefix t ++ origName ∉ ex) :
    resolveName (formatDatetimePrefix t) origName ex =
      formatDatetimePrefix t ++ origName ∧
    formatDatetimePrefix ⟨2025, 8, 8, 14, 30, 22⟩ = "250808_143022_" ∧
    (rename_file ⟨["in"], [(("in", "report.pdf"), ⟨7, ⟨2025, 8, 8, 14, 30, 22⟩⟩)]⟩
        "in" "report.pdf" "out" false).2 =
      .success "250808_143022_report.pdf" :=
  ⟨resolveName_no_collision h, by decide, by decide⟩

/-- Witness for C3 at the spec's scenario input. -/
theorem claim_C3_witness :
    resolveName (formatDatetimePrefix ⟨2025, 8, 8, 14, 30, 22⟩) "report.pdf" [] =
      formatDatetimePrefix ⟨2025, 8, 8, 14, 30, 22⟩ ++ "report.pdf" ∧
    formatDatetimePrefix ⟨2025, 8, 8, 14, 30, 22⟩ = "250808_143022_" ∧
    (rename_file ⟨["in"], [(("in", "report.pdf"), ⟨7, ⟨2025, 8, 8, 14, 30, 22⟩⟩)]⟩
        "in" "report.pdf" "out" false).2 =
      .success "250808_143022_report.pdf" :=
  claim_C3 ⟨2025, 8, 8, 14, 30, 22⟩ "report.pdf" [] (by decide)

/-- C4: the collision loop always terminates with a free name: the
counter-indexed candidates are pairwise distinct, so against any finite
directory content some candidate is free and the loop returns one; giving
the loop any iteration budget of at least `ex.length + 1` produces the same
result (the unbounded source loop stabilizes at this name); and no upper
bound on the counter is enforced — seeding the directory with the first `n`
candidates drives the counter past any `n`. -/
theorem claim_C4 (pre origName : String) :
    Function.Injective (candidate pre origName) ∧
    (∀ ex : List String, ∃ k, candidate pre origName k ∉ ex ∧
      resolveName pre origName ex = candidate pre origName k) ∧
    (∀ (ex : List String) (fuel : Nat), ex.length + 1 ≤ fuel →
      findFreeName pre origName ex fuel 1 (pre ++ origName) =
        resolveName pre origName ex) ∧
    (∀ n, resolveName pre origName ((List.range n).map (candidate pre origName)) =
      candidate pre origName n) := by
  refine ⟨candidate_injective pre origName, ?_, ?_,
    fun n => resolveName_range pre origName n⟩
  · intro ex
    obtain ⟨k, _, hfree, _, heq, _⟩ := resolveName_spec pre origName ex
    exact ⟨k, hfree, heq⟩
  · intro ex fuel hf
    obtain ⟨k, _, _, _, heq, hfuel⟩ := resolveName_spec pre origName ex
    rw [heq]
    exact hfuel fuel hf

/-- Witness for C4: a budget of 7 computes the same name the bounded run
computes against a one-entry directory. -/
theorem claim_C4_witness :
    findFreeName "250808_143022_" "report.pdf" ["250808_143022_report.pdf"] 7 1
        ("250808_143022_" ++ "report.pdf") =
      resolveName "250808_143022_" "report.pdf" ["250808_143022_report.pdf"] :=
  (claim_C4 "250808_143022_" "report.pdf").2.2.1 ["250808_143022_report.pdf"] 7 (by decide)

/-- C5: on success the destination file holds exactly the source file's
data (content and metadata); in copy mode the source file is still present
with unchanged data, and in move mode the source location no longer holds a
file. -/
theorem claim_C5 {fs fs' : FS} {sd sn dd : String} {mode : Bool} {nm : String}
    (h : rename_file fs sd sn dd mode = (fs', .success nm)) :
    (∃ fd, fs.lookup (sd, sn) = some fd ∧ fs'.lookup (dd, nm) = some fd) ∧
    (mode = true → fs'.lookup (sd, sn) = fs.lookup (sd, sn)) ∧
    (mode = false → fs'.lookup (sd, sn) = none) := by
  obtain ⟨fd, hsrc, hnm, hfs'⟩ := rename_file_success h
  have hpre : 0 < (formatDatetimePrefix fd.ctime).length := by
    have := formatDatetimePrefix_length fd.ctime
    omega
  have hne : nm ≠ sn := by
    rw [hnm]
    exact resolveName_ne_orig sn _ hpre
  have hpne : ((sd, sn) : FPath) ≠ (dd, nm) := by
    intro he
    injection he with _ h2
    exact hne h2.symm
  cases mode with
  | true =>
    simp only [if_true] at hfs'
    subst hfs'
    refine ⟨⟨fd, hsrc, FS.lookup_insertFile_self _ _ _⟩, ?_, by simp⟩
    intro _
    rw [FS.lookup_insertFile_ne _ _ hpne, FS.lookup_mkdir]
  | false =>
    simp only [Bool.false_eq_true, if_false] at hfs'
    subst hfs'
    refine ⟨⟨fd, hsrc, FS.lookup_insertFile_self _ _ _⟩, by simp, ?_⟩
    intro _
    rw [FS.lookup_insertFile_ne _ _ hpne, FS.lookup_eraseFile_self]

/-- Witness for C5: a concrete move run. -/
theorem claim_C5_witness :
    (∃ fd, (⟨["in"], [(("in", "report.pdf"), ⟨7, ⟨2025, 8, 8, 14, 30, 22⟩⟩)]⟩ : FS).lookup
        ("in", "report.pdf") = some fd ∧
      (⟨["out", "in"],
        [(("out", "250808_143022_report.pdf"), ⟨7, ⟨2025, 8, 8, 14, 30, 22⟩⟩)]⟩ : FS).lookup
          ("out", "250808_143022_report.pdf") = some fd) ∧
    (false = true →
      (⟨["out", "in"],
        [(("out", "250808_143022_report.pdf"), ⟨7, ⟨2025, 8, 8, 14, 30, 22⟩⟩)]⟩ : FS).lookup
          ("in", "report.pdf") =
        (⟨["in"], [(("in", "report.pdf"), ⟨7, ⟨2025, 8, 8, 14, 30, 22⟩⟩)]⟩ : FS).lookup
          ("in", "report.pdf")) ∧
    (false = false →
      (⟨["out", "in"],
        [(("out", "250808_143022_report.pdf"), ⟨7, ⟨2025, 8, 8, 14, 30, 22⟩⟩)]⟩ : FS).lookup
          ("in", "report.pdf") = none) :=
  @claim_C5 ⟨["in"], [(("in", "report.pdf"), ⟨7, ⟨2025, 8, 8, 14, 30, 22⟩⟩)]⟩
    ⟨["out", "in"], [(("out", "250808_143022_report.pdf"), ⟨7, ⟨2025, 8, 8, 14, 30, 22⟩⟩)]⟩
    "in" "report.pdf" "out" false "250808_143022_report.pdf" (by decide)

/-- C6: a single-file invocation on a nonexistent path returns a failure
outcome and leaves the filesystem completely unchanged — in particular the
destination directory is not created and no file is written. -/
theorem claim_C6 {fs : FS} {sd sn dd : String} {mode : Bool}
    (h : fs.lookup (sd, sn) = none) :
    (mainSingleFile fs sd sn dd mode).1 = fs ∧
    ∃ msg, (mainSingleFile fs sd sn dd mode).2 = .failure msg := by
  unfold mainSingleFile
  rw [h]
  exact ⟨rfl, "File does not exist", rfl⟩

/-- Witness for C6: invoking on a missing file next to an empty input
directory. -/
theorem claim_C6_witness :
    (mainSingleFile ⟨["in"], []⟩ "in" "missing.txt" "out" false).1 = ⟨["in"], []⟩ ∧
    ∃ msg, (mainSingleFile ⟨["in"], []⟩ "in" "missing.txt" "out" false).2 = .failure msg :=
  @claim_C6 ⟨["in"], []⟩ "in" "missing.txt" "out" false (by decide)

/-- C7: extension filtering with a non-empty filter selects exactly the
files whose extension (Python `Path.suffix`, leading dot included) matches
some filter entry ignoring case; on files `a.txt`, `b.pdf`, `c.TXT` with
filter `{.txt}` exactly `a.txt` and `c.TXT` are selected. -/
theorem claim_C7 (files exts : List String) (f : String) (hne : exts ≠ []) :
    (f ∈ filterByExtensions files (some exts) ↔
      f ∈ files ∧ ∃ e ∈ exts, strLower (pathSuffix f) = strLower e) ∧
    filterByExtensions ["a.txt", "b.pdf", "c.TXT"] (some [".txt"]) =
      ["a.txt", "c.TXT"] :=
  ⟨mem_filterByExtensions hne f, by decide⟩

/-- Witness for C7 at the spec's example. -/
theorem claim_C7_witness :
    ("c.TXT" ∈ filterByExtensions ["a.txt", "b.pdf", "c.TXT"] (some [".txt"]) ↔
      "c.TXT" ∈ ["a.txt", "b.pdf", "c.TXT"] ∧
        ∃ e ∈ [".txt"], strLower (pathSuffix "c.TXT") = strLower e) ∧
    filterByExtensions ["a.txt", "b.pdf", "c.TXT"] (some [".txt"]) =
      ["a.txt", "c.TXT"] :=
  claim_C7 ["a.txt", "b.pdf", "c.TXT"] [".txt"] "c.TXT" (by decide)

/-- C8: a batch run yields exactly one outcome per considered file and
failures are non-fatal: the final tally satisfies
successes + failures = number of files considered after extension
filtering. -/
theorem claim_C8 {fs : FS} {inputDir outputDir : String} {copyMode : Bool}
    {fileExtensions : Option (List String)} {fs' : FS} {s e : Nat}
    (h : process_directory fs inputDir outputDir copyMode fileExtensions =
      some (fs', s, e)) :
    s + e = (filterByExtensions (fs.namesIn inputDir) fileExtensions).length := by
  unfold process_directory at h
  by_cases hd : inputDir ∈ fs.dirs
  · rw [if_pos hd] at h
    simp only [Option.some.injEq] at h
    have hc := processFiles_counts inputDir outputDir copyMode
      (filterByExtensions (fs.namesIn inputDir) fileExtensions) fs
    have hs := congrArg (fun r => r.2.1) h
    have he := congrArg (fun r => r.2.2) h
    simp only at hs he
    omega
  · rw [if_neg hd] at h
    exact absurd h (by simp)

/-- Witness for C8: one `.txt` file considered, one success, zero failures. -/
theorem claim_C8_witness :
    1 + 0 = (filterByExtensions
      ((⟨["in"], [(("in", "a.txt"), ⟨1, ⟨2025, 8, 8, 14, 30, 22⟩⟩)]⟩ : FS).namesIn "in")
      (some [".txt"])).length :=
  @claim_C8 ⟨["in"], [(("in", "a.txt"), ⟨1, ⟨2025, 8, 8, 14, 30, 22⟩⟩)]⟩ "in" "out" true
    (some [".txt"])
    ⟨["out", "in"], [(("out", "250808_143022_a.txt"), ⟨1, ⟨2025, 8, 8, 14, 30, 22⟩⟩),
      (("in", "a.txt"), ⟨1, ⟨2025, 8, 8, 14, 30, 22⟩⟩)]⟩ 1 0 (by decide)

/-- C9: for a dotfile (leading dot, no other dot) the collision alternate
treats the part after the dot as the extension rather than the file as
extensionless: the alternate is the prefix, the empty base name, `_NNN`,
then the dotted extension — resolving `.bashrc` against an occupied
`250808_143022_.bashrc` yields `250808_143022__001.bashrc`, not the
whole-name form `250808_143022_.bashrc_001`. -/
theorem claim_C9 (pre ext : String) (c : Nat) (h : '.' ∉ ext.data) :
    suffixedName pre ("." ++ ext) c = pre ++ "_" ++ pad3 c ++ "." ++ ext ∧
    resolveName "250808_143022_" ".bashrc" ["250808_143022_.bashrc"] =
      "250808_143022__001.bashrc" ∧
    resolveName "250808_143022_" ".bashrc" ["250808_143022_.bashrc"] ≠
      "250808_143022_.bashrc_001" :=
  ⟨suffixedName_dotfile pre h c, by decide, by decide⟩

/-- Witness for C9 at `.bashrc` with counter 1. -/
theorem claim_C9_witness :
    suffixedName "250808_143022_" ("." ++ "bashrc") 1 =
      "250808_143022_" ++ "_" ++ pad3 1 ++ "." ++ "bashrc" ∧
    resolveName "250808_143022_" ".bashrc" ["250808_143022_.bashrc"] =
      "250808_143022__001.bashrc" ∧
    resolveName "250808_143022_" ".bashrc" ["250808_143022_.bashrc"] ≠
      "250808_143022_.bashrc_001" :=
  claim_C9 "250808_143022_" "bashrc" 1 (by decide)

/-- C10: an empty extension-filter list disables filtering (Python
truthiness of `if file_extensions:`): every regular file in the input
directory is considered, and `process_directory` behaves exactly as with no
filter at all. -/
theorem claim_C10 (fs : FS) (inputDir outputDir : String) (copyMode : Bool) :
    filterByExtensions (fs.namesIn inputDir) (some []) = fs.namesIn inputDir ∧
    process_directory fs inputDir outputDir copyMode (some []) =
      process_directory fs inputDir outputDir copyMode none := by
  refine ⟨filterByExtensions_nil _, ?_⟩
  unfold process_directory
  rw [filterByExtensions_nil, filterByExtensions_none]

end FileRenamer
